import Mathlib

/-!
Shallow embedding of the tiny-async controller core:
`createRunFn` / `cancel` from `src/lib/main.ts` together with the
memoization layer (`createMemoizedRun` inside `pMemoize`).

Values, cache keys and task-error payloads are modelled as naturals.
JavaScript promise settlement is modelled by an explicit event list:
synchronous user calls (`run`, `cancel`) mutate state immediately and
push microtasks; external task settlements and the microtask drain are
separate events.  React `useState` cells are modelled as immediately
updated fields, and `useRef` cells as ordinary fields, following the
spec's single-threaded cooperative scheduling model.
-/

namespace TinyAsync

/-- Cache keys (the default `cacheKey` takes the first argument; we model
the argument list by the key it hashes to). -/
abbrev K := Nat

/-- Values returned by the task function. -/
abbrev V := Nat

/-- Errors: a task-raised error payload, or the `AbortController`'s
`signal.reason` (a fresh `AbortError` per execution, identified by the
execution symbol). -/
inductive Err where
  | task (n : Nat)
  | abortSig (sym : Nat)
deriving DecidableEq, Repr

/-- Fully resolved run options (`RunConfig` after merging). -/
structure RunConfig where
  cancelOnUnmount : Bool
  keepPreviousData : Bool
  ignoreCache : Bool
deriving DecidableEq, Repr

/-- An options layer in which every field may be absent (a JS object that
may omit keys). -/
structure RunOverrides where
  cancelOnUnmount : Option Bool := none
  keepPreviousData : Option Bool := none
  ignoreCache : Option Bool := none
deriving DecidableEq, Repr

/-- The built-in `defaultOptions` of `createRunFn`. -/
def defaultOptions : RunConfig := ⟨false, false, false⟩

/-- Spread one overrides layer over a base config (`{...base, ...o}`). -/
def overrideWith (base : RunConfig) (o : RunOverrides) : RunConfig :=
  ⟨o.cancelOnUnmount.getD base.cancelOnUnmount,
   o.keepPreviousData.getD base.keepPreviousData,
   o.ignoreCache.getD base.ignoreCache⟩

/-- `{...defaultOptions, ...hookOptions, ...runOptions}`. -/
def mergeOpts (hookOptions runOptions : RunOverrides) : RunConfig :=
  overrideWith (overrideWith defaultOptions hookOptions) runOptions

/-- What a call's returned future resolves to: `{data, latest, cached}`. -/
structure RunResult where
  data : V
  latest : Bool
  cached : Bool
deriving DecidableEq, Repr

/-- Settlement status of a call's returned `userPromise`. -/
inductive UPStatus where
  | pending
  | resolved (r : RunResult)
  | rejected (e : Err)
deriving DecidableEq, Repr

/-- The `prevState` snapshot captured at the start of `createRunFn`'s body. -/
structure Snapshot where
  data : Option V
  isInitial : Bool
  isRejected : Bool
  error : Option Err
deriving DecidableEq, Repr

/-- The `runningRef.current` record. -/
structure RunningRec where
  startedAt : Nat
  sym : Nat
  hash : K
  opts : RunConfig
deriving DecidableEq, Repr

/-- The `lastResolvedRef.current` record (`{...data, startedAt, symbol, hash}`). -/
structure LastResolvedRec where
  data : V
  cached : Bool
  startedAt : Nat
  sym : Nat
  hash : K
deriving DecidableEq, Repr

/-- Progress of one memoized-run IIFE (the `(async () => {...})()` inside
`createMemoizedRun`): freshly created and about to check the value cache,
running the `i`-th task-function invocation, or completed. -/
inductive JobPhase where
  | checking
  | running (callIdx : Nat)
  | done
deriving DecidableEq, Repr

/-- Settled outcome of a memoized-run IIFE promise. -/
inductive JobOutcome where
  | resolvedJ (v : V) (cached : Bool)
  | rejectedJ (e : Err)
deriving DecidableEq, Repr

/-- One memoized-run IIFE promise (the thing stored in `promiseCache`). -/
structure Job where
  id : Nat
  key : K
  ignoreCache : Bool
  phase : JobPhase
  outcome : Option JobOutcome
deriving DecidableEq, Repr

/-- One execution created by a `run` call in `createRunFn`. -/
structure Exec where
  sym : Nat
  startedAt : Nat
  hash : K
  opts : RunConfig
  prev : Snapshot
  jobId : Nat
  aborted : Bool
  up : UPStatus
  finallyDone : Bool
deriving DecidableEq, Repr

/-- Pending microtasks: resumption of a memoized-run IIFE after its first
`await`, an execution's `.then`/`.catch` reaction on its job promise, and
an execution's `userPromise.finally` cleanup. -/
inductive MT where
  | resumeJob (j : Nat)
  | thenHandler (sym : Nat)
  | finallyOf (sym : Nat)
deriving DecidableEq, Repr

/-- The hook's observable `useState` cells. -/
structure CState where
  data : Option V
  error : Option Err
  isPending : Bool
  isInitial : Bool
  isRejected : Bool
deriving DecidableEq, Repr

/-- Whole-system state. -/
structure Sys where
  st : CState
  running : Option RunningRec
  lastResolved : Option LastResolvedRec
  execs : List Exec
  jobs : List Job
  promiseCache : List (K × Nat)
  cache : List (K × V)
  fnCalls : List (Nat × K)
  mtq : List MT
  nextSym : Nat
  nextJob : Nat
  nextCall : Nat
deriving DecidableEq, Repr

/-- Per-hook configuration: the `abortable` flag and the `hookOptions`
layer given when the hook is instantiated. -/
structure Config where
  abortable : Bool
  hookOpts : RunOverrides
deriving DecidableEq, Repr

def defaultCfg : Config := ⟨false, {}⟩

def abortableCfg : Config := ⟨true, {}⟩

/-- Fresh controller state (first render of the hook). -/
def init : Sys :=
  ⟨⟨none, none, false, true, false⟩, none, none, [], [], [], [], [], [], 0, 0, 0⟩

/-- Association-list read (models `Map.get`/`Map.has`). -/
def alGet {α : Type} : List (K × α) → K → Option α
  | [], _ => none
  | (k', v) :: rest, k => if k = k' then some v else alGet rest k

/-- Association-list write (models `Map.set`). -/
def alSet {α : Type} : List (K × α) → K → α → List (K × α)
  | [], k, v => [(k, v)]
  | (k', v') :: rest, k, v =>
    if k = k' then (k, v) :: rest else (k', v') :: alSet rest k v

/-- Association-list delete (models `Map.delete`). -/
def alDel {α : Type} : List (K × α) → K → List (K × α)
  | [], _ => []
  | (k', v') :: rest, k =>
    if k = k' then alDel rest k else (k', v') :: alDel rest k

/-- Look up an execution by its symbol. -/
def findExec (s : Sys) (sym : Nat) : Option Exec :=
  s.execs.find? (fun e => decide (e.sym = sym))

/-- Update the execution with the given symbol. -/
def modifyExec (l : List Exec) (sym : Nat) (f : Exec → Exec) : List Exec :=
  l.map (fun e => if e.sym = sym then f e else e)

/-- Look up a job by id. -/
def getJob (s : Sys) (j : Nat) : Option Job :=
  s.jobs.find? (fun jb => decide (jb.id = j))

/-- Update the job with the given id. -/
def modifyJob (l : List Job) (j : Nat) (f : Job → Job) : List Job :=
  l.map (fun jb => if jb.id = j then f jb else jb)

/-- The job currently awaiting the `i`-th task-function invocation. -/
def findJobByCall (s : Sys) (i : Nat) : Option Job :=
  s.jobs.find? (fun jb => decide (jb.phase = JobPhase.running i))

/-- `userPromise.resolve r`: settles the promise if it is still pending and
queues its `.finally` reaction; a no-op on an already settled promise. -/
def resolveUP (s : Sys) (sym : Nat) (r : RunResult) : Sys :=
  match findExec s sym with
  | some e =>
    match e.up with
    | .pending =>
      { s with
        execs := modifyExec s.execs sym (fun e' => { e' with up := .resolved r }),
        mtq := s.mtq ++ [.finallyOf sym] }
    | _ => s
  | none => s

/-- `userPromise.reject err`: settles the promise if it is still pending and
queues its `.finally` reaction; a no-op on an already settled promise. -/
def rejectUP (s : Sys) (sym : Nat) (err : Err) : Sys :=
  match findExec s sym with
  | some e =>
    match e.up with
    | .pending =>
      { s with
        execs := modifyExec s.execs sym (fun e' => { e' with up := .rejected err }),
        mtq := s.mtq ++ [.finallyOf sym] }
    | _ => s
  | none => s

/-- Settle a job promise: record its outcome and queue the `.then`/`.catch`
reactions of every execution attached to it, in attachment order. -/
def settleJob (s : Sys) (j : Nat) (o : JobOutcome) : Sys :=
  { s with
    jobs := modifyJob s.jobs j (fun jb => { jb with outcome := some o, phase := .done }),
    mtq := s.mtq ++
      ((s.execs.filter (fun e => decide (e.jobId = j))).map (fun e => MT.thenHandler e.sym)) }

/-- The synchronous body of a `run` call (`createRunFn(runOptions)(...args)`
in `src/lib/main.ts`): merge options, snapshot `prevState`, install the new
`runningRef` record, set the pending state, and invoke the memoized
function (`memoizedFn.withOpts({ignoreCache})(...)`), which either shares
the in-flight job found in `promiseCache` or creates a fresh IIFE job whose
body resumes on a later microtask (its first `await`). -/
def createRunFn (cfg : Config) (s : Sys) (key : K) (time : Nat)
    (runOptions : RunOverrides) : Sys :=
  let opts := mergeOpts cfg.hookOpts runOptions
  let hash := key
  let sym := s.nextSym
  let prev : Snapshot := ⟨s.st.data, s.st.isInitial, s.st.isRejected, s.st.error⟩
  let st1 : CState :=
    { data := if opts.keepPreviousData then s.st.data else none,
      error := none, isPending := true, isInitial := false, isRejected := false }
  let s1 : Sys :=
    { s with
      running := some ⟨time, sym, hash, opts⟩,
      st := st1,
      nextSym := sym + 1 }
  match alGet s1.promiseCache hash, opts.ignoreCache with
  | some j, false =>
    { s1 with
      execs := s1.execs ++ [⟨sym, time, hash, opts, prev, j, false, .pending, false⟩] }
  | _, _ =>
    let j := s1.nextJob
    { s1 with
      jobs := s1.jobs ++ [⟨j, hash, opts.ignoreCache, .checking, none⟩],
      promiseCache := alSet s1.promiseCache hash j,
      mtq := s1.mtq ++ [.resumeJob j],
      execs := s1.execs ++ [⟨sym, time, hash, opts, prev, j, false, .pending, false⟩],
      nextSym := s1.nextSym,
      nextJob := j + 1 }

/-- The `cancel` callback: a no-op when `runningRef.current` is null;
otherwise fire `abortController.abort()` (whose listener rejects the
user promise with `signal.reason` when the hook is not `abortable`) and
delete the running execution's `promiseCache` entry. -/
def cancel (cfg : Config) (s : Sys) : Sys :=
  match s.running with
  | none => s
  | some r =>
    let s1 :=
      match findExec s r.sym with
      | some e =>
        if e.aborted then s
        else
          let s' : Sys :=
            { s with execs := modifyExec s.execs r.sym (fun e' => { e' with aborted := true }) }
          if cfg.abortable then s' else rejectUP s' r.sym (.abortSig r.sym)
      | none => s
    { s1 with promiseCache := alDel s1.promiseCache r.hash }

/-- Resume a memoized-run IIFE after its first `await` (`await cache.has`):
on a cache hit (and `!ignoreCache`) read the cached value, run the outer
`finally` (`promiseCache.delete`) and settle the job with `cached: true`;
otherwise invoke the task function (`fn.apply(this, arguments_)`). -/
def procResume (s : Sys) (j : Nat) : Sys :=
  match getJob s j with
  | none => s
  | some jb =>
    match jb.phase with
    | .checking =>
      match alGet s.cache jb.key, jb.ignoreCache with
      | some v, false =>
        settleJob { s with promiseCache := alDel s.promiseCache jb.key } j (.resolvedJ v true)
      | _, _ =>
        let i := s.nextCall
        { s with
          fnCalls := s.fnCalls ++ [(i, jb.key)],
          jobs := modifyJob s.jobs j (fun jb' => { jb' with phase := .running i }),
          nextCall := i + 1 }
    | _ => s

/-- An execution's `.then`/`.catch` reaction running after its job promise
settled (`promise.then(...).catch(...)` in `createRunFn`). -/
def procThen (s : Sys) (sym : Nat) : Sys :=
  match findExec s sym with
  | none => s
  | some e =>
    match getJob s e.jobId with
    | none => s
    | some jb =>
      match jb.outcome with
      | none => s
      | some (.resolvedJ v c) =>
        if e.aborted then s
        else
          let latest :=
            match s.lastResolved with
            | none => true
            | some lr => decide (lr.startedAt < e.startedAt)
          let s1 := resolveUP s sym ⟨v, latest, c⟩
          let commit :=
            match s1.lastResolved with
            | none => true
            | some lr => decide (lr.startedAt ≤ e.startedAt)
          let s2 :=
            if commit then
              { s1 with
                lastResolved := some ⟨v, c, e.startedAt, e.sym, e.hash⟩,
                st := { s1.st with data := some v } }
            else s1
          match s2.running with
          | some r =>
            if r.sym = e.sym then { s2 with st := { s2.st with isRejected := false } } else s2
          | none => s2
      | some (.rejectedJ err) =>
        if e.aborted then
          if err = .abortSig e.sym then rejectUP s sym err else s
        else
          let s1 := rejectUP s sym err
          match s1.running with
          | some r =>
            if r.sym = e.sym then
              { s1 with st := { s1.st with error := some err, isRejected := true } }
            else s1
          | none => s1

/-- The `userPromise.finally` cleanup: when the settling execution is still
the current one, clear `runningRef`, drop `isPending`, and, when it was
aborted, restore `isRejected`, `isInitial` and `data` from `prevState`. -/
def procFinally (s : Sys) (sym : Nat) : Sys :=
  match findExec s sym with
  | none => s
  | some e =>
    let execs' := modifyExec s.execs sym (fun e' => { e' with finallyDone := true })
    match s.running with
    | some r =>
      if r.sym = e.sym then
        let st1 := { s.st with isPending := false }
        let st2 :=
          if e.aborted then
            { st1 with
              isRejected := e.prev.isRejected,
              isInitial := e.prev.isInitial,
              data := e.prev.data }
          else st1
        { s with running := none, st := st2, execs := execs' }
      else { s with execs := execs' }
    | none => { s with execs := execs' }

/-- Dispatch one microtask. -/
def procMT (s : Sys) : MT → Sys
  | .resumeJob j => procResume s j
  | .thenHandler sym => procThen s sym
  | .finallyOf sym => procFinally s sym

/-- Run the microtask queue FIFO until empty (fuel-bounded). -/
def drainQ : Nat → Sys → Sys
  | 0, s => s
  | fuel + 1, s =>
    match s.mtq with
    | [] => s
    | m :: rest => drainQ fuel (procMT { s with mtq := rest } m)

/-- The `i`-th task-function invocation resolves with `v`: the IIFE resumes
(`result = await promise`), runs `await cache.set(key, result)` and the
outer `finally` (`promiseCache.delete`), and the job promise resolves with
`{data: result, cached: false}`. -/
def taskResolve (s : Sys) (i : Nat) (v : V) : Sys :=
  match findJobByCall s i with
  | none => s
  | some jb =>
    settleJob
      { s with
        cache := alSet s.cache jb.key v,
        promiseCache := alDel s.promiseCache jb.key }
      jb.id (.resolvedJ v false)

/-- The `i`-th task-function invocation rejects with `err`: no cache write,
the outer `finally` deletes the `promiseCache` entry, and the job promise
rejects. -/
def taskReject (s : Sys) (i : Nat) (err : Err) : Sys :=
  match findJobByCall s i with
  | none => s
  | some jb =>
    settleJob { s with promiseCache := alDel s.promiseCache jb.key } jb.id (.rejectedJ err)

/-- External events driving the system. -/
inductive Event where
  | run (key : K) (time : Nat) (runOptions : RunOverrides)
  | cancel
  | taskResolve (i : Nat) (v : V)
  | taskReject (i : Nat) (e : Err)
  | drain
deriving DecidableEq, Repr

/-- One event step.  `drain` processes the microtask queue to quiescence
(the fuel is a crude upper bound on the number of pending reactions). -/
def step (cfg : Config) (s : Sys) : Event → Sys
  | .run k t o => createRunFn cfg s k t o
  | .cancel => cancel cfg s
  | .taskResolve i v => taskResolve s i v
  | .taskReject i e => taskReject s i e
  | .drain => drainQ (s.mtq.length + 3 * s.execs.length + s.jobs.length + 8) s

/-- Run a list of events. -/
def runEvents (cfg : Config) (s : Sys) : List Event → Sys
  | [] => s
  | e :: es => runEvents cfg (step cfg s e) es

/-- Derived `status` string, exactly as computed in the hook. -/
def status (s : Sys) : String :=
  if s.st.isInitial then "initial"
  else if s.st.isPending then "pending"
  else if s.st.isRejected then "rejected"
  else "resolved"

/-- Settlement status of the returned future of execution `sym`. -/
def upOf (s : Sys) (sym : Nat) : Option UPStatus :=
  (findExec s sym).map Exec.up

/-- How many times the task function has been invoked. -/
def fnCount (s : Sys) : Nat := s.fnCalls.length

/-! ### Concrete states used to instantiate the general theorems -/

/-- A run whose job promise has resolved but whose reactions are still queued. -/
def W1 : Sys := runEvents defaultCfg init [.run 5 0 {}, .drain, .taskResolve 0 9]

def eW1 : Exec :=
  ⟨0, 0, 5, ⟨false, false, false⟩, ⟨none, true, false, none⟩, 0, false, .pending, false⟩

def jbW1 : Job := ⟨0, 5, false, .done, some (.resolvedJ 9 false)⟩

/-- A run that has just been cancelled; its `finally` reaction is still queued. -/
def W3 : Sys := runEvents defaultCfg init [.run 5 0 {}, .cancel]

def eW3 : Exec :=
  ⟨0, 0, 5, ⟨false, false, false⟩, ⟨none, true, false, none⟩, 0, true,
   .rejected (.abortSig 0), false⟩

def rW3 : RunningRec := ⟨0, 0, 5, ⟨false, false, false⟩⟩

/-- A run whose job promise has rejected but whose reactions are still queued. -/
def W4 : Sys := runEvents defaultCfg init [.run 5 0 {}, .drain, .taskReject 0 (.task 3)]

def eW4 : Exec :=
  ⟨0, 0, 5, ⟨false, false, false⟩, ⟨none, true, false, none⟩, 0, false, .pending, false⟩

def jbW4 : Job := ⟨0, 5, false, .done, some (.rejectedJ (.task 3))⟩

/-- A run whose task-function invocation is in flight. -/
def W7 : Sys := runEvents defaultCfg init [.run 5 0 {}, .drain]

def jbW7 : Job := ⟨0, 5, false, .running 0, none⟩

/-- A freshly started run (its IIFE has not yet resumed). -/
def W8 : Sys := runEvents defaultCfg init [.run 5 0 {}]

def eW8 : Exec :=
  ⟨0, 0, 5, ⟨false, false, false⟩, ⟨none, true, false, none⟩, 0, false, .pending, false⟩

def rW8 : RunningRec := ⟨0, 0, 5, ⟨false, false, false⟩⟩

/-- Like `W1`, for the `latest`-flag theorem. -/
def W9 : Sys := runEvents defaultCfg init [.run 6 0 {}, .drain, .taskResolve 0 4]

def eW9 : Exec :=
  ⟨0, 0, 6, ⟨false, false, false⟩, ⟨none, true, false, none⟩, 0, false, .pending, false⟩

def jbW9 : Job := ⟨0, 6, false, .done, some (.resolvedJ 4 false)⟩

/-! ### Frame lemmas for the promise-settling helpers -/

lemma resolveUP_st (s : Sys) (sym : Nat) (r : RunResult) :
    (resolveUP s sym r).st = s.st := by
  unfold resolveUP
  split
  · split <;> rfl
  · rfl

lemma resolveUP_running (s : Sys) (sym : Nat) (r : RunResult) :
    (resolveUP s sym r).running = s.running := by
  unfold resolveUP
  split
  · split <;> rfl
  · rfl

lemma resolveUP_lastResolved (s : Sys) (sym : Nat) (r : RunResult) :
    (resolveUP s sym r).lastResolved = s.lastResolved := by
  unfold resolveUP
  split
  · split <;> rfl
  · rfl

lemma resolveUP_cache (s : Sys) (sym : Nat) (r : RunResult) :
    (resolveUP s sym r).cache = s.cache := by
  unfold resolveUP
  split
  · split <;> rfl
  · rfl

lemma rejectUP_st (s : Sys) (sym : Nat) (err : Err) :
    (rejectUP s sym err).st = s.st := by
  unfold rejectUP
  split
  · split <;> rfl
  · rfl

lemma rejectUP_running (s : Sys) (sym : Nat) (err : Err) :
    (rejectUP s sym err).running = s.running := by
  unfold rejectUP
  split
  · split <;> rfl
  · rfl

lemma rejectUP_lastResolved (s : Sys) (sym : Nat) (err : Err) :
    (rejectUP s sym err).lastResolved = s.lastResolved := by
  unfold rejectUP
  split
  · split <;> rfl
  · rfl

lemma rejectUP_cache (s : Sys) (sym : Nat) (err : Err) :
    (rejectUP s sym err).cache = s.cache := by
  unfold rejectUP
  split
  · split <;> rfl
  · rfl

lemma find_modifyExec (l : List Exec) (sym : Nat) (f : Exec → Exec)
    (hf : ∀ e, (f e).sym = e.sym) :
    (modifyExec l sym f).find? (fun e => decide (e.sym = sym))
      = (l.find? (fun e => decide (e.sym = sym))).map f := by
  induction l with
  | nil => rfl
  | cons a l ih =>
    by_cases h : a.sym = sym
    · simp [modifyExec, List.find?_cons, h, hf]
    · simpa [modifyExec, List.find?_cons, h] using ih

lemma upOf_resolveUP (s : Sys) (sym : Nat) (r : RunResult) (e : Exec)
    (he : findExec s sym = some e) (hup : e.up = .pending) :
    upOf (resolveUP s sym r) sym = some (.resolved r) := by
  unfold resolveUP
  rw [he]
  simp only [hup]
  unfold upOf findExec
  rw [find_modifyExec s.execs sym (fun e' => { e' with up := .resolved r }) (fun e' => rfl)]
  rw [show s.execs.find? (fun e' => decide (e'.sym = sym)) = some e from he]
  rfl

lemma upOf_rejectUP (s : Sys) (sym : Nat) (err : Err) (e : Exec)
    (he : findExec s sym = some e) (hup : e.up = .pending) :
    upOf (rejectUP s sym err) sym = some (.rejected err) := by
  unfold rejectUP
  rw [he]
  simp only [hup]
  unfold upOf findExec
  rw [find_modifyExec s.execs sym (fun e' => { e' with up := .rejected err }) (fun e' => rfl)]
  rw [show s.execs.find? (fun e' => decide (e'.sym = sym)) = some e from he]
  rfl

lemma findExec_rejectUP (s : Sys) (sym : Nat) (err : Err) (e : Exec)
    (he : findExec s sym = some e) (hup : e.up = .pending) :
    findExec (rejectUP s sym err) sym = some { e with up := .rejected err } := by
  unfold rejectUP
  rw [he]
  simp only [hup]
  unfold findExec
  rw [find_modifyExec s.execs sym (fun e' => { e' with up := .rejected err }) (fun e' => rfl)]
  rw [show s.execs.find? (fun e' => decide (e'.sym = sym)) = some e from he]
  rfl

/-! ### Which steps can write the value cache -/

lemma settleJob_cache (s : Sys) (j : Nat) (o : JobOutcome) :
    (settleJob s j o).cache = s.cache := rfl

lemma procResume_cache (s : Sys) (j : Nat) : (procResume s j).cache = s.cache := by
  unfold procResume
  repeat' split
  all_goals rfl

lemma procThen_cache (s : Sys) (sym : Nat) : (procThen s sym).cache = s.cache := by
  unfold procThen
  cases he : findExec s sym with
  | none => rfl
  | some e =>
    cases hj : getJob s e.jobId with
    | none => simp only [hj]
    | some jb =>
      cases ho : jb.outcome with
      | none => simp only [hj, ho]
      | some o =>
        cases o with
        | resolvedJ v c =>
          by_cases hab : e.aborted = true
          · simp [hj, ho, hab]
          · simp only [hj, ho, hab, if_false, Bool.false_eq_true,
                       resolveUP_lastResolved, resolveUP_running]
            repeat' split
            all_goals simp [resolveUP_cache]
        | rejectedJ err =>
          by_cases hab : e.aborted = true
          · simp only [hj, ho, hab, if_true]
            split
            · simp [rejectUP_cache]
            · rfl
          · simp only [hj, ho, hab, if_false, Bool.false_eq_true, rejectUP_running]
            repeat' split
            all_goals simp [rejectUP_cache]

lemma procFinally_cache (s : Sys) (sym : Nat) : (procFinally s sym).cache = s.cache := by
  unfold procFinally
  repeat' split
  all_goals rfl

lemma procMT_cache (s : Sys) (m : MT) : (procMT s m).cache = s.cache := by
  cases m with
  | resumeJob j => exact procResume_cache s j
  | thenHandler sym => exact procThen_cache s sym
  | finallyOf sym => exact procFinally_cache s sym

lemma drainQ_cache (fuel : Nat) : ∀ s : Sys, (drainQ fuel s).cache = s.cache := by
  induction fuel with
  | zero => intro s; rfl
  | succ n ih =>
    intro s
    unfold drainQ
    split
    · rfl
    · rename_i m rest h
      rw [ih]
      exact procMT_cache { s with mtq := rest } m

lemma createRunFn_cache (cfg : Config) (s : Sys) (k : K) (t : Nat) (o : RunOverrides) :
    (createRunFn cfg s k t o).cache = s.cache := by
  unfold createRunFn
  cases h1 : alGet s.promiseCache k <;>
    cases h2 : (mergeOpts cfg.hookOpts o).ignoreCache <;>
      simp [h1, h2]

lemma cancel_cache (cfg : Config) (s : Sys) : (cancel cfg s).cache = s.cache := by
  unfold cancel
  repeat' split
  all_goals simp [rejectUP_cache]

lemma taskReject_cache (s : Sys) (i : Nat) (err : Err) :
    (taskReject s i err).cache = s.cache := by
  unfold taskReject
  repeat' split
  all_goals rfl

/-! ### The claims -/

/-- Claim C1: latest-wins by start order.  On successful settlement of an
execution with start time `t` (its job promise resolved and it was not
aborted), its data is committed to the observable `data`, and
`lastResolvedRef` updated, iff no result has been committed yet or the
start time of the last committed execution is `≤ t` (so with equal start
times the later-settling call's commit wins); otherwise both are left
untouched.  In particular, for executions A (started at 0, resolving
later) and B (started at 50 with `ignoreCache`, resolving earlier), the
final committed data is B's value and A's own future resolves with
`latest = false`. -/
theorem claim1_latest_wins :
    (∀ (s : Sys) (sym : Nat) (e : Exec) (jb : Job) (v : V) (c : Bool),
      findExec s sym = some e → getJob s e.jobId = some jb →
      jb.outcome = some (.resolvedJ v c) → e.aborted = false →
      ((s.lastResolved = none ∨ ∃ lr, s.lastResolved = some lr ∧ lr.startedAt ≤ e.startedAt) →
        (procThen s sym).st.data = some v ∧
        (procThen s sym).lastResolved = some ⟨v, c, e.startedAt, e.sym, e.hash⟩) ∧
      (∀ lr, s.lastResolved = some lr → e.startedAt < lr.startedAt →
        (procThen s sym).st.data = s.st.data ∧
        (procThen s sym).lastResolved = s.lastResolved)) ∧
    (∀ k vA vB : Nat,
      (runEvents defaultCfg init
        [.run k 0 {}, .run k 50 {ignoreCache := some true}, .drain,
         .taskResolve 1 vB, .drain, .taskResolve 0 vA, .drain]).st.data = some vB ∧
      upOf (runEvents defaultCfg init
        [.run k 0 {}, .run k 50 {ignoreCache := some true}, .drain,
         .taskResolve 1 vB, .drain, .taskResolve 0 vA, .drain]) 0
        = some (.resolved ⟨vA, false, false⟩)) := by
  constructor
  · intro s sym e jb v c he hj ho hab
    unfold procThen
    rw [he]
    simp only [hj, ho, hab, Bool.false_eq_true, if_false,
               resolveUP_lastResolved, resolveUP_running, resolveUP_st]
    constructor
    · rintro (hnone | ⟨lr, hlr, hle⟩)
      · simp only [hnone]
        repeat' split
        all_goals simp_all [resolveUP_st, resolveUP_lastResolved]
      · simp only [hlr, hle, decide_eq_true_eq, if_true, decide_True]
        repeat' split
        all_goals simp_all [resolveUP_st, resolveUP_lastResolved]
    · intro lr hlr hlt
      have hnle : ¬ (lr.startedAt ≤ e.startedAt) := Nat.not_le.mpr hlt
      simp only [hlr, hnle, decide_False, if_false]
      repeat' split
      all_goals simp_all [resolveUP_st, resolveUP_lastResolved]
  · intro k vA vB
    simp [runEvents, step, createRunFn, cancel, procResume, procThen, procFinally,
          procMT, drainQ, taskResolve, taskReject, settleJob, resolveUP, rejectUP,
          findExec, getJob, findJobByCall, modifyExec, modifyJob, alGet, alSet, alDel,
          mergeOpts, overrideWith, defaultOptions, upOf, fnCount, init, defaultCfg]

/-- Witness for C1: in state `W1` (one execution, started at 0, job resolved
with 9, nothing committed yet) the settling handler commits 9. -/
theorem claim1_witness :
    (procThen W1 0).st.data = some 9 ∧
    (procThen W1 0).lastResolved = some ⟨9, false, 0, 0, 5⟩ :=
  (claim1_latest_wins.1 W1 0 eW1 jbW1 9 false (by decide) (by decide)
    (by decide) (by decide)).1 (Or.inl (by decide))

/-- Claim C2: single-flight per key.  Two `run` calls with the same key and
`ignoreCache = false`, the second issued before the first settles (whether
before or after the task function is actually invoked), cause exactly one
task-function invocation, and both returned futures resolve to the same
value with `cached = false`. -/
theorem claim2_single_flight (k v : Nat) :
    (fnCount (runEvents defaultCfg init
        [.run k 0 {}, .run k 0 {}, .drain, .taskResolve 0 v, .drain]) = 1 ∧
      upOf (runEvents defaultCfg init
        [.run k 0 {}, .run k 0 {}, .drain, .taskResolve 0 v, .drain]) 0
        = some (.resolved ⟨v, true, false⟩) ∧
      upOf (runEvents defaultCfg init
        [.run k 0 {}, .run k 0 {}, .drain, .taskResolve 0 v, .drain]) 1
        = some (.resolved ⟨v, false, false⟩)) ∧
    (fnCount (runEvents defaultCfg init
        [.run k 0 {}, .drain, .run k 0 {}, .drain, .taskResolve 0 v, .drain]) = 1 ∧
      upOf (runEvents defaultCfg init
        [.run k 0 {}, .drain, .run k 0 {}, .drain, .taskResolve 0 v, .drain]) 0
        = some (.resolved ⟨v, true, false⟩) ∧
      upOf (runEvents defaultCfg init
        [.run k 0 {}, .drain, .run k 0 {}, .drain, .taskResolve 0 v, .drain]) 1
        = some (.resolved ⟨v, false, false⟩)) := by
  constructor <;>
    simp [runEvents, step, createRunFn, cancel, procResume, procThen, procFinally,
          procMT, drainQ, taskResolve, taskReject, settleJob, resolveUP, rejectUP,
          findExec, getJob, findJobByCall, modifyExec, modifyJob, alGet, alSet, alDel,
          mergeOpts, overrideWith, defaultOptions, upOf, fnCount, init, defaultCfg]

/-- Counterexample to C3 as stated: start from a rejected state whose
`error` is `task 5`, run again (which snapshots that state, including the
error, into `prevState`), and cancel before settlement.  No newer
execution has committed (`lastResolved` is still unset), so the claim
demands the observable state return to exactly the snapshot — but while
`isRejected` (hence `status`) is restored, `error` stays `undefined`
instead of returning to `task 5`. -/
theorem claim3_counterexample :
    (((findExec (runEvents defaultCfg init
        [.run 7 0 {}, .drain, .taskReject 0 (.task 5), .drain,
         .run 7 1 {}, .cancel, .drain]) 1).map fun e => e.prev.error)
      = some (some (.task 5))) ∧
    (runEvents defaultCfg init
        [.run 7 0 {}, .drain, .taskReject 0 (.task 5), .drain,
         .run 7 1 {}, .cancel, .drain]).st.error = none ∧
    (runEvents defaultCfg init
        [.run 7 0 {}, .drain, .taskReject 0 (.task 5), .drain,
         .run 7 1 {}, .cancel, .drain]).st.isRejected = true ∧
    (runEvents defaultCfg init
        [.run 7 0 {}, .drain, .taskReject 0 (.task 5), .drain,
         .run 7 1 {}, .cancel, .drain]).lastResolved = none := by
  decide

/-- Amended C3: when the cancelled execution's cleanup runs while it is
still the current one, `data`, `isInitial` and `isRejected` (hence
`status`) are restored from the pre-execution snapshot, `isPending` is
cleared, and `error` is left at its current value (it was cleared when the
execution started and is not restored); when another execution has become
current in the meantime — whether or not it committed data — no rollback
happens at all. -/
theorem claim3_rollback_on_cancel_amended :
    (∀ (s : Sys) (sym : Nat) (e : Exec) (r : RunningRec),
      findExec s sym = some e → e.aborted = true →
      s.running = some r → r.sym = e.sym →
      (procFinally s sym).st.data = e.prev.data ∧
      (procFinally s sym).st.isInitial = e.prev.isInitial ∧
      (procFinally s sym).st.isRejected = e.prev.isRejected ∧
      (procFinally s sym).st.isPending = false ∧
      (procFinally s sym).st.error = s.st.error ∧
      (procFinally s sym).running = none) ∧
    (∀ (s : Sys) (sym : Nat) (e : Exec) (r : RunningRec),
      findExec s sym = some e →
      s.running = some r → r.sym ≠ e.sym →
      (procFinally s sym).st = s.st ∧ (procFinally s sym).running = s.running) := by
  constructor
  · intro s sym e r he hab hr hsym
    unfold procFinally
    rw [he]
    simp only [hr, hsym, hab, if_true]
    simp
  · intro s sym e r he hr hsym
    unfold procFinally
    rw [he]
    simp only [hr, hsym, if_false]
    simp [hr, hsym]

/-- Witness for the amended C3: in state `W3` (one cancelled pending
execution, still current) the cleanup restores the initial snapshot and
leaves `error` unchanged. -/
theorem claim3_witness :
    (procFinally W3 0).st.data = eW3.prev.data ∧
    (procFinally W3 0).st.isInitial = eW3.prev.isInitial ∧
    (procFinally W3 0).st.isRejected = eW3.prev.isRejected ∧
    (procFinally W3 0).st.isPending = false ∧
    (procFinally W3 0).st.error = W3.st.error ∧
    (procFinally W3 0).running = none :=
  claim3_rollback_on_cancel_amended.1 W3 0 eW3 rW3 (by decide) (by decide)
    (by decide) (by decide)

/-- Claim C4: superseded-error gating.  When an execution's job promise
rejects and the execution was not aborted, the error is always delivered
to that call's own returned future; the observable `error`/`isRejected`
state is updated iff the execution is still the current one
(`runningRef.current.symbol === executionSymbol`, i.e. no newer `run` has
begun and its own cleanup has not run), and is left entirely untouched
otherwise. -/
theorem claim4_superseded_error_gating (s : Sys) (sym : Nat) (e : Exec) (jb : Job)
    (err : Err)
    (he : findExec s sym = some e) (hj : getJob s e.jobId = some jb)
    (ho : jb.outcome = some (.rejectedJ err)) (hab : e.aborted = false)
    (hup : e.up = .pending) :
    upOf (procThen s sym) sym = some (.rejected err) ∧
    (∀ r, s.running = some r → r.sym = e.sym →
      (procThen s sym).st.error = some err ∧ (procThen s sym).st.isRejected = true) ∧
    (∀ r, s.running = some r → r.sym ≠ e.sym → (procThen s sym).st = s.st) ∧
    (s.running = none → (procThen s sym).st = s.st) := by
  unfold procThen
  rw [he]
  simp only [hj, ho, hab, Bool.false_eq_true, if_false, rejectUP_running, rejectUP_st]
  have hfind := findExec_rejectUP s sym err e he hup
  refine ⟨?_, ?_, ?_, ?_⟩
  · cases hr : s.running with
    | none => simp [upOf, hfind]
    | some r =>
      by_cases hsym : r.sym = e.sym
      · simp [hr, hsym, upOf, findExec] at hfind ⊢
        simp [hfind]
      · simp [hr, hsym, upOf, findExec] at hfind ⊢
        simp [hfind]
  · intro r hr hsym
    simp [hr, hsym, rejectUP_st]
  · intro r hr hsym
    simp [hr, hsym, rejectUP_st]
  · intro hr
    simp [hr, rejectUP_st]

/-- Witness for C4: in state `W4` (one execution, still current, job
rejected with `task 3`) the error reaches both the call's future and the
observable state. -/
theorem claim4_witness :
    upOf (procThen W4 0) 0 = some (.rejected (.task 3)) ∧
    (procThen W4 0).st.error = some (.task 3) ∧
    (procThen W4 0).st.isRejected = true := by
  have h := claim4_superseded_error_gating W4 0 eW4 jbW4 (.task 3)
    (by decide) (by decide) (by decide) (by decide) (by decide)
  exact ⟨h.1, h.2.1 ⟨0, 0, 5, ⟨false, false, false⟩⟩ (by decide) (by decide)⟩

set_option maxHeartbeats 4000000 in
/-- Claim C5: cache hit.  After an execution for key `k` resolves and its
value is committed to the cache store, a subsequent `run` with the same
key and `ignoreCache = false` resolves without invoking the task function
again and its returned future carries `cached = true`. -/
theorem claim5_cache_hit (k v : Nat) :
    fnCount (runEvents defaultCfg init
      [.run k 0 {}, .drain, .taskResolve 0 v, .drain, .run k 1 {}, .drain]) = 1 ∧
    upOf (runEvents defaultCfg init
      [.run k 0 {}, .drain, .taskResolve 0 v, .drain, .run k 1 {}, .drain]) 1
      = some (.resolved ⟨v, true, true⟩) ∧
    (runEvents defaultCfg init
      [.run k 0 {}, .drain, .taskResolve 0 v, .drain, .run k 1 {}, .drain]).st.data
      = some v := by
  simp [runEvents, step, createRunFn, cancel, procResume, procThen, procFinally,
        procMT, drainQ, taskResolve, taskReject, settleJob, resolveUP, rejectUP,
        findExec, getJob, findJobByCall, modifyExec, modifyJob, alGet, alSet, alDel,
        mergeOpts, overrideWith, defaultOptions, upOf, fnCount, init, defaultCfg]

/-- Claim C6: rollback to initial.  From the initial state, `run(k)` then
`cancel()` before settlement returns the observable state to
`{status: initial, data: undefined, error: undefined}`. -/
theorem claim6_rollback_to_initial (k : Nat) :
    status (runEvents defaultCfg init [.run k 0 {}, .cancel, .drain]) = "initial" ∧
    (runEvents defaultCfg init [.run k 0 {}, .cancel, .drain]).st.data = none ∧
    (runEvents defaultCfg init [.run k 0 {}, .cancel, .drain]).st.error = none := by
  simp [runEvents, step, createRunFn, cancel, procResume, procThen, procFinally,
        procMT, drainQ, taskResolve, taskReject, settleJob, resolveUP, rejectUP,
        findExec, getJob, findJobByCall, modifyExec, modifyJob, alGet, alSet, alDel,
        mergeOpts, overrideWith, defaultOptions, upOf, fnCount, init, defaultCfg, status]

/-- Counterexample to C7 as stated: run, cancel (the execution is aborted,
its future rejected with the abort reason, observable state rolled back),
then the underlying task function nonetheless resolves — and the
memoization layer, which is unaware of the abort, writes the value into
the cache store.  A cancelled execution therefore does write a cache
entry. -/
theorem claim7_counterexample :
    alGet (runEvents defaultCfg init
      [.run 0 0 {}, .drain, .cancel, .drain, .taskResolve 0 7, .drain]).cache 0
      = some 7 ∧
    upOf (runEvents defaultCfg init
      [.run 0 0 {}, .drain, .cancel, .drain, .taskResolve 0 7, .drain]) 0
      = some (.rejected (.abortSig 0)) := by
  decide

/-- Amended C7: the cache store is written exactly by successful
task-function resolution.  Starting a run, cancelling, a task rejection,
and microtask processing (cache-hit reads included) never mutate the cache;
a task resolution always writes its value under the job's key — whether or
not the execution that spawned the invocation has since been cancelled. -/
theorem claim7_cache_write_amended :
    (∀ (cfg : Config) (s : Sys) (k : K) (t : Nat) (o : RunOverrides),
      (createRunFn cfg s k t o).cache = s.cache) ∧
    (∀ (cfg : Config) (s : Sys), (cancel cfg s).cache = s.cache) ∧
    (∀ (s : Sys) (i : Nat) (err : Err), (taskReject s i err).cache = s.cache) ∧
    (∀ (fuel : Nat) (s : Sys), (drainQ fuel s).cache = s.cache) ∧
    (∀ (s : Sys) (i : Nat) (v : V) (jb : Job), findJobByCall s i = some jb →
      (taskResolve s i v).cache = alSet s.cache jb.key v) ∧
    (∀ (s : Sys) (i : Nat) (v : V), findJobByCall s i = none →
      (taskResolve s i v).cache = s.cache) := by
  refine ⟨createRunFn_cache, cancel_cache, taskReject_cache, drainQ_cache, ?_, ?_⟩
  · intro s i v jb h
    unfold taskResolve
    rw [h]
    rfl
  · intro s i v h
    unfold taskResolve
    rw [h]

/-- Witness for the amended C7: in state `W7` (one in-flight invocation for
key 5) resolving the task writes the cache. -/
theorem claim7_witness :
    (taskResolve W7 0 9).cache = alSet W7.cache jbW7.key 9 :=
  claim7_cache_write_amended.2.2.2.2.1 W7 0 9 jbW7 (by decide)

/-- Counterexample to C8 as stated: with `abortable = true` the abort
listener does not reject the user promise itself.  Run, cancel, then the
task fails with an error different from the abort reason: the `.catch`
handler sees the execution aborted and the error is not the abort reason,
so it returns without rejecting the user promise or touching state.  The
task did run (and failed), yet the call's future stays pending forever and
no `error`/`isRejected` state is ever set — the failure is invisible. -/
theorem claim8_counterexample :
    upOf (runEvents abortableCfg init
      [.run 0 0 {}, .drain, .cancel, .drain, .taskReject 0 (.task 9), .drain]) 0
      = some .pending ∧
    (runEvents abortableCfg init
      [.run 0 0 {}, .drain, .cancel, .drain, .taskReject 0 (.task 9), .drain]).st.error
      = none ∧
    (runEvents abortableCfg init
      [.run 0 0 {}, .drain, .cancel, .drain, .taskReject 0 (.task 9), .drain]).st.isRejected
      = false ∧
    fnCount (runEvents abortableCfg init
      [.run 0 0 {}, .drain, .cancel, .drain, .taskReject 0 (.task 9), .drain]) = 1 := by
  decide

/-- Amended C8: a task failure of a non-cancelled execution always rejects
that call's own returned future, and (when the hook is not `abortable`)
cancellation itself rejects the future with the abort reason — so in those
cases no failure is invisible.  The exception the counterexample exhibits
(`abortable` hook, cancelled execution, task failing with a different
error) is the only gap. -/
theorem claim8_failure_visibility_amended :
    (∀ (s : Sys) (sym : Nat) (e : Exec) (jb : Job) (err : Err),
      findExec s sym = some e → getJob s e.jobId = some jb →
      jb.outcome = some (.rejectedJ err) → e.aborted = false → e.up = .pending →
      upOf (procThen s sym) sym = some (.rejected err)) ∧
    (∀ (cfg : Config) (s : Sys) (r : RunningRec) (e : Exec),
      cfg.abortable = false → s.running = some r →
      findExec s r.sym = some e → e.aborted = false → e.up = .pending →
      upOf (cancel cfg s) r.sym = some (.rejected (.abortSig r.sym))) := by
  constructor
  · intro s sym e jb err he hj ho hab hup
    unfold procThen
    rw [he]
    simp only [hj, ho, hab, Bool.false_eq_true, if_false, rejectUP_running]
    have hfind := findExec_rejectUP s sym err e he hup
    cases hr : s.running with
    | none => simp [upOf, hfind]
    | some r =>
      by_cases hsym : r.sym = e.sym
      · simp [hr, hsym, upOf, findExec] at hfind ⊢
        simp [hfind]
      · simp [hr, hsym, upOf, findExec] at hfind ⊢
        simp [hfind]
  · intro cfg s r e hcfg hr he hab hup
    unfold cancel
    rw [hr]
    simp only [he, hab, hcfg, Bool.false_eq_true, if_false]
    have hfind : findExec
        { s with running := some r,
                 execs := modifyExec s.execs r.sym (fun e' => { e' with aborted := true }) }
        r.sym = some { e with aborted := true } := by
      unfold findExec
      rw [find_modifyExec s.execs r.sym (fun e' => { e' with aborted := true }) (fun e' => rfl)]
      rw [show s.execs.find? (fun e' => decide (e'.sym = r.sym)) = some e from he]
      rfl
    have h2 := findExec_rejectUP _ r.sym (.abortSig r.sym) { e with aborted := true } hfind hup
    exact congrArg (Option.map Exec.up) h2

/-- Witness for the amended C8: cancelling the fresh pending run in `W8`
(non-abortable hook) rejects its future with the abort reason. -/
theorem claim8_witness :
    upOf (cancel defaultCfg W8) rW8.sym = some (.rejected (.abortSig rW8.sym)) :=
  claim8_failure_visibility_amended.2 defaultCfg W8 rW8 eW8 (by decide) (by decide)
    (by decide) (by decide) (by decide)

/-- Counterexample to C9 as stated: execution 0 starts at t = 0; a newer
run (symbol 1, `ignoreCache`) starts at t = 50, so execution 0 is no
longer the most-recently-started call; then execution 0's task resolves.
Its returned future nevertheless carries `latest = true`, because the code
computes `latest` from `lastResolvedRef` (no commit had happened yet), not
from whether the call was superseded. -/
theorem claim9_counterexample :
    upOf (runEvents defaultCfg init
      [.run 0 0 {}, .run 0 50 {ignoreCache := some true}, .drain,
       .taskResolve 0 7, .drain]) 0
      = some (.resolved ⟨7, true, false⟩) ∧
    ((runEvents defaultCfg init
      [.run 0 0 {}, .run 0 50 {ignoreCache := some true}, .drain,
       .taskResolve 0 7, .drain]).running.map RunningRec.sym) = some 1 := by
  decide

/-- Amended C9: when an execution with start time `t` settles successfully
(not aborted), its returned future resolves with its value, the `cached`
flag of the job outcome, and `latest = true` iff no execution had yet
committed a result whose start time is `≥ t` (i.e.
`lastResolvedRef` is unset or `lastResolvedRef.startedAt < t`) — start
order against committed results, not supersession, decides `latest`. -/
theorem claim9_latest_flag_amended (s : Sys) (sym : Nat) (e : Exec) (jb : Job)
    (v : V) (c : Bool)
    (he : findExec s sym = some e) (hj : getJob s e.jobId = some jb)
    (ho : jb.outcome = some (.resolvedJ v c)) (hab : e.aborted = false)
    (hup : e.up = .pending) :
    upOf (procThen s sym) sym
      = some (.resolved ⟨v,
          (match s.lastResolved with
           | none => true
           | some lr => decide (lr.startedAt < e.startedAt)), c⟩) ∧
    ((match s.lastResolved with
      | none => true
      | some lr => decide (lr.startedAt < e.startedAt)) = true
      ↔ ∀ lr, s.lastResolved = some lr → lr.startedAt < e.startedAt) := by
  constructor
  · unfold procThen
    rw [he]
    simp only [hj, ho, hab, Bool.false_eq_true, if_false, resolveUP_lastResolved,
               resolveUP_running]
    have hfind := upOf_resolveUP s sym
      ⟨v, (match s.lastResolved with
           | none => true
           | some lr => decide (lr.startedAt < e.startedAt)), c⟩ e he hup
    repeat' split
    all_goals simp_all [upOf, findExec]
  · cases hl : s.lastResolved with
    | none => simp
    | some lr => simp

/-- Witness for the amended C9: in state `W9` (nothing committed yet) the
settling execution's future carries `latest = true`. -/
theorem claim9_witness :
    upOf (procThen W9 0) 0 = some (.resolved ⟨4, true, false⟩) := by
  have h := (claim9_latest_flag_amended W9 0 eW9 jbW9 4 false
    (by decide) (by decide) (by decide) (by decide) (by decide)).1
  exact h

/-- Claim C10: `cancel` with no pending execution is a no-op — the entire
system state (observable fields, refs, cache store, in-flight registry,
microtask queue) is returned unchanged. -/
theorem claim10_cancel_noop (cfg : Config) (s : Sys) (h : s.running = none) :
    cancel cfg s = s := by
  unfold cancel
  rw [h]

/-- Witness for C10: cancelling in the fresh initial state changes nothing. -/
theorem claim10_witness : cancel defaultCfg init = init :=
  claim10_cancel_noop defaultCfg init rfl

end TinyAsync
